import Mathlib

/-!
Shallow embedding of the adaptive-concurrency and batch-dispatch core of the
repository: `src/project/src/cnai_embedding.py` (class CNAIEmbeddings),
`src/project/src/gpu_manager.py` (class GpuAdaptiveManager) and
`src/project/main.py` (process_single_case and the worker-pool loop in main).

Python threads are modelled by making the nondeterministic completion order of
futures an explicit parameter, and the environment (the embedding HTTP API, the
GPU operation) an explicit script of outcomes.  Floating-point embedding values
are modelled as integers: the code never computes with them, it only moves them
around, and the only literal that matters is the zero used for padding.
-/

namespace CNAI

/-- One attempt of the embedding API as observed by
`CNAIEmbeddings._call_api_single_batch`: the HTTP call (or status check, or
JSON decode) raises, or returns JSON without a `data` field, or returns a
`data` list of records with an `index` and an `embedding`. -/
inductive Attempt where
  | raiseExc (msg : String)
  | noData
  | data (items : List (Nat × List Int))
deriving Repr, DecidableEq

/-- Console output of `_call_api_single_batch`, plus the `time.sleep(1)`
backoff, kept as an observable trace. -/
inductive ApiLog where
  | warnPadding (got expected : Nat)
  | errNoData
  | errAttempt (attempt : Nat)
  | sleepBackoff
deriving Repr, DecidableEq

/-- `max_retries = 3` in `_call_api_single_batch`. -/
def maxRetries : Nat := 3

/-- The success path of one attempt in `_call_api_single_batch`, given the
parsed `data` list: sort by `index` (Python `sorted` is stable, as is
insertion sort), project out the embeddings, and when the count differs from
the input count print a warning and append zero vectors while the result is
short (dimension taken from the first embedding, 1024 when there is none).
An excess is not trimmed: the `while` loop only appends. -/
def dataEmbeddings (items : List (Nat × List Int)) (texts : List String) :
    List ApiLog × List (List Int) :=
  let data := List.insertionSort (fun a b => a.1 ≤ b.1) items
  let embeddings := data.map Prod.snd
  if embeddings.length ≠ texts.length then
    let dim := match embeddings with
      | [] => 1024
      | v :: _ => v.length
    ([ApiLog.warnPadding embeddings.length texts.length],
      embeddings ++ List.replicate (texts.length - embeddings.length)
        (List.replicate dim 0))
  else
    ([], embeddings)

/-- The retry loop of `_call_api_single_batch`: `attempt` is the current
attempt number, `rem` the remaining iterations of
`for attempt in range(max_retries)`.  An exception prints an error and sleeps
one second before the next iteration; a missing `data` field prints an error;
if the loop ends without returning, a `RuntimeError` is raised. -/
def attemptLoop (script : Nat → Attempt) (texts : List String) :
    Nat → Nat → List ApiLog × Except String (List (List Int))
  | _, 0 => ([], Except.error "Failed to embed batch after max_retries attempts.")
  | attempt, rem + 1 =>
    match script attempt with
    | Attempt.raiseExc _ =>
      let next := attemptLoop script texts (attempt + 1) rem
      (ApiLog.errAttempt attempt :: ApiLog.sleepBackoff :: next.1, next.2)
    | Attempt.noData =>
      let next := attemptLoop script texts (attempt + 1) rem
      (ApiLog.errNoData :: next.1, next.2)
    | Attempt.data items =>
      let out := dataEmbeddings items texts
      (out.1, Except.ok out.2)

/-- `CNAIEmbeddings._call_api_single_batch`, over a script of per-attempt API
behaviours; returns the printed log trace together with either the embeddings
or the raised error. -/
def callApiSingleBatch (script : Nat → Attempt) (texts : List String) :
    List ApiLog × Except String (List (List Int)) :=
  attemptLoop script texts 0 maxRetries

/-- The batch split in `embed_documents`:
`[texts[i : i + batch_size] for i in range(0, total_docs, batch_size)]`.
Faithful for `batchSize ≥ 1`; Python raises `ValueError` on a zero step, so
every theorem below assumes `1 ≤ batchSize`. -/
def toBatches (batchSize : Nat) : List α → List (List α)
  | [] => []
  | x :: xs =>
    (x :: xs).take batchSize :: toBatches batchSize (xs.drop (batchSize - 1))
termination_by l => l.length
decreasing_by simp only [List.length_cons, List.length_drop]; omega

/-- The `as_completed` loop of `embed_documents`: `order` lists the batch
indices in the order their futures complete; each result is stored at its
batch index in the pre-sized `batch_results` list, and the first failed
future has its exception re-raised. -/
def collectResults (res : Nat → Except String (List β)) :
    List Nat → List (Option (List β)) → Except String (List (Option (List β)))
  | [], acc => Except.ok acc
  | i :: rest, acc =>
    match res i with
    | Except.error e => Except.error e
    | Except.ok v => collectResults res rest (acc.set i (some v))

/-- Step 3 of `embed_documents`: flatten `batch_results` in batch-index
order, raising `RuntimeError` when a batch result is missing. -/
def flattenResults : List (Option (List β)) → Except String (List β)
  | [] => Except.ok []
  | none :: _ => Except.error "Missing embedding results for some batches."
  | some v :: rest =>
    match flattenResults rest with
    | Except.ok tail => Except.ok (v ++ tail)
    | Except.error e => Except.error e

/-- `CNAIEmbeddings.embed_documents`: split into batches, dispatch each batch
to the producer `prod` (one call per batch index), collect results in the
completion order `order`, and flatten in batch-index order. -/
def embedDocuments (prod : Nat → List α → Except String (List β))
    (batchSize : Nat) (order : List Nat) (texts : List α) :
    Except String (List β) :=
  match collectResults
      (fun i => prod i ((toBatches batchSize texts).getD i [])) order
      (List.replicate (toBatches batchSize texts).length none) with
  | Except.error e => Except.error e
  | Except.ok results => flattenResults results

/-- `embed_documents` with `_call_api_single_batch` as the producer, batch `i`
seeing attempt script `script i`; the per-batch log output is dropped. -/
def embedDocumentsApi (script : Nat → Nat → Attempt) (batchSize : Nat)
    (order : List Nat) (texts : List String) :
    Except String (List (List Int)) :=
  embedDocuments (fun i batch => (callApiSingleBatch (script i) batch).2)
    batchSize order texts

/-! Helper lemmas about the batch split of `embed_documents`. -/

theorem toBatches_flatten (b : Nat) (hb : 1 ≤ b) (xs : List α) :
    (toBatches b xs).flatten = xs := by
  induction xs using toBatches.induct b with
  | case1 => simp [toBatches]
  | case2 x xs ih =>
    rw [toBatches]
    obtain ⟨c, rfl⟩ : ∃ c, b = c + 1 := ⟨b - 1, by omega⟩
    simp only [List.flatten_cons, Nat.add_sub_cancel] at ih ⊢
    rw [ih, List.take_succ_cons, List.cons_append, List.take_append_drop]

theorem toBatches_sizes_le (b : Nat) (xs : List α) :
    ∀ l ∈ toBatches b xs, l.length ≤ b := by
  induction xs using toBatches.induct b with
  | case1 => simp [toBatches]
  | case2 x xs ih =>
    rw [toBatches]
    intro l hl
    rcases List.mem_cons.mp hl with h | h
    · subst h
      rw [List.length_take]
      omega
    · exact ih l h

theorem toBatches_getD (b : Nat) (hb : 1 ≤ b) (i : Nat) (xs : List α) :
    (toBatches b xs).getD i [] = (xs.drop (i * b)).take b := by
  induction i generalizing xs with
  | zero =>
    cases xs with
    | nil => simp [toBatches]
    | cons x l => rw [toBatches]; simp
  | succ i ih =>
    cases xs with
    | nil => simp [toBatches]
    | cons x l =>
      rw [toBatches]
      have h1 : (i + 1) * b = (b - 1 + i * b) + 1 := by
        have h2 : (i + 1) * b = i * b + b := by ring
        omega
      rw [List.getD_cons_succ, ih, List.drop_drop, h1, List.drop_succ_cons]

/-! Helper lemmas about the result array of `embed_documents`:
writing completed batches back by index, in any completion order. -/

theorem foldl_set_length (g : Nat → γ) (order : List Nat) (acc : List γ) :
    (order.foldl (fun a i => a.set i (g i)) acc).length = acc.length := by
  induction order generalizing acc with
  | nil => rfl
  | cons i rest ih => rw [List.foldl_cons, ih, List.length_set]

theorem foldl_set_getElem? (g : Nat → γ) (order : List Nat) (acc : List γ)
    (j : Nat) :
    (order.foldl (fun a i => a.set i (g i)) acc)[j]? =
      if j ∈ order ∧ j < acc.length then some (g j) else acc[j]? := by
  induction order generalizing acc with
  | nil => simp
  | cons i rest ih =>
    rw [List.foldl_cons, ih]
    by_cases hjr : j ∈ rest
    · by_cases hlt : j < acc.length
      · simp [hjr, hlt, List.length_set]
      · have h1 : (acc.set i (g i))[j]? = none :=
          List.getElem?_eq_none (by simp; omega)
        have h2 : acc[j]? = none := List.getElem?_eq_none (by omega)
        simp [hjr, hlt, List.length_set, h1, h2]
    · by_cases hji : j = i
      · subst hji
        by_cases hlt : j < acc.length
        · simp [hjr, hlt, List.getElem?_set_self hlt]
        · have h1 : (acc.set j (g j))[j]? = none :=
            List.getElem?_eq_none (by simp; omega)
          have h2 : acc[j]? = none := List.getElem?_eq_none (by omega)
          simp [hjr, hlt, h1, h2]
      · have hij : i ≠ j := fun h => hji h.symm
        simp [hjr, hji, List.getElem?_set_ne hij]

theorem range_map_getD (l : List γ) (d : γ) :
    (List.range l.length).map (fun i => l.getD i d) = l := by
  apply List.ext_getElem?
  intro n
  by_cases h : n < l.length
  · simp [List.getElem?_map, List.getElem?_range, h, List.getD_eq_getElem?_getD,
      List.getElem?_eq_getElem h]
  · have h1 : l[n]? = none := List.getElem?_eq_none (Nat.le_of_not_lt h)
    have h2 : (List.range l.length)[n]? = none :=
      List.getElem?_eq_none (by simpa using Nat.le_of_not_lt h)
    simp [List.getElem?_map, h1, h2]

theorem collectResults_all_ok (res : Nat → Except String (List β))
    (g : Nat → List β) (order : List Nat) (acc : List (Option (List β)))
    (h : ∀ i ∈ order, res i = Except.ok (g i)) :
    collectResults res order acc =
      Except.ok (order.foldl (fun a i => a.set i (some (g i))) acc) := by
  induction order generalizing acc with
  | nil => rfl
  | cons i rest ih =>
    have hi : res i = Except.ok (g i) := h i (List.mem_cons_self i rest)
    rw [collectResults, hi]
    exact ih _ (fun j hj => h j (List.mem_cons_of_mem i hj))

theorem collectResults_ok_elim (res : Nat → Except String (List β))
    (order : List Nat) (acc results : List (Option (List β)))
    (h : collectResults res order acc = Except.ok results) :
    results.length = acc.length ∧
    ∀ j, ((j ∈ order ∧ j < acc.length) →
        ∃ v, res j = Except.ok v ∧ results[j]? = some (some v)) ∧
      (j ∉ order → results[j]? = acc[j]?) := by
  induction order generalizing acc with
  | nil =>
    rw [collectResults] at h
    injection h with h
    subst h
    exact ⟨rfl, fun j => ⟨fun hj => absurd hj.1 (List.not_mem_nil j), fun _ => rfl⟩⟩
  | cons i rest ih =>
    rw [collectResults] at h
    cases hres : res i with
    | error e => rw [hres] at h; exact absurd h (by simp)
    | ok v =>
      rw [hres] at h
      obtain ⟨hlen, hprops⟩ := ih (acc.set i (some v)) h
      refine ⟨by rw [hlen, List.length_set], fun j => ⟨fun hj => ?_, fun hj => ?_⟩⟩
      · rcases List.mem_cons.mp hj.1 with hji | hjr
        · subst hji
          by_cases hjrest : j ∈ rest
          · exact (hprops j).1 ⟨hjrest, by rw [List.length_set]; exact hj.2⟩
          · refine ⟨v, hres, ?_⟩
            rw [(hprops j).2 hjrest, List.getElem?_set_self hj.2]
        · exact (hprops j).1 ⟨hjr, by rw [List.length_set]; exact hj.2⟩
      · have hji : j ≠ i := fun hh => hj (hh ▸ List.mem_cons_self i rest)
        have hjr : j ∉ rest := fun hh => hj (List.mem_cons_of_mem i hh)
        rw [(hprops j).2 hjr, List.getElem?_set_ne (fun hh => hji hh.symm)]

theorem flattenResults_map_some (vs : List (List β)) :
    flattenResults (vs.map some) = Except.ok vs.flatten := by
  induction vs with
  | nil => rfl
  | cons v rest ih => simp [flattenResults, ih]

theorem flattenResults_ok_elim (l : List (Option (List β))) (out : List β)
    (h : flattenResults l = Except.ok out) :
    ∃ vs : List (List β), l = vs.map some ∧ out = vs.flatten := by
  induction l generalizing out with
  | nil =>
    injection h with h
    exact ⟨[], rfl, h.symm⟩
  | cons o rest ih =>
    cases o with
    | none => exact absurd h (by simp [flattenResults])
    | some v =>
      rw [flattenResults] at h
      cases hrest : flattenResults rest with
      | error e => rw [hrest] at h; exact absurd h (by simp)
      | ok tail =>
        rw [hrest] at h
        injection h with h
        obtain ⟨vs, rfl, rfl⟩ := ih tail hrest
        exact ⟨v :: vs, rfl, h.symm⟩

/-- Anything `embed_documents` returns with `Except.ok` is the flattening of
one successful producer result per batch index. -/
theorem embedDocuments_ok_elim (prod : Nat → List α → Except String (List β))
    (batchSize : Nat) (order : List Nat) (texts : List α) (out : List β)
    (h : embedDocuments prod batchSize order texts = Except.ok out) :
    ∃ vs : List (List β),
      vs.length = (toBatches batchSize texts).length ∧
      out = vs.flatten ∧
      ∀ j, j < vs.length →
        ∃ v, prod j ((toBatches batchSize texts).getD j []) = Except.ok v ∧
          vs[j]? = some v := by
  unfold embedDocuments at h
  cases hcol : collectResults
      (fun i => prod i ((toBatches batchSize texts).getD i [])) order
      (List.replicate (toBatches batchSize texts).length none) with
  | error e => rw [hcol] at h; exact absurd h (by simp)
  | ok results =>
    rw [hcol] at h
    obtain ⟨hlen, hprops⟩ := collectResults_ok_elim _ _ _ _ hcol
    obtain ⟨vs, hmap, hout⟩ := flattenResults_ok_elim results out h
    have hvslen : vs.length = (toBatches batchSize texts).length := by
      have h1 := congrArg List.length hmap
      simp only [List.length_map, List.length_replicate] at h1 hlen
      omega
    refine ⟨vs, hvslen, hout, fun j hj => ?_⟩
    have hjres : j < results.length := by
      rw [hmap, List.length_map]; exact hj
    obtain ⟨v0, hv0⟩ := List.getElem?_eq_some.mp (List.getElem?_eq_getElem hj)
    have hresj : results[j]? = some (some vs[j]) := by
      rw [hmap, List.getElem?_map, List.getElem?_eq_getElem hj]; rfl
    have hjorder : j ∈ order := by
      by_contra hno
      have h2 := (hprops j).2 hno
      rw [hresj, List.getElem?_replicate] at h2
      have hjn : j < (toBatches batchSize texts).length := hvslen ▸ hj
      rw [if_pos hjn] at h2
      exact Option.noConfusion (Option.some.inj h2)
    obtain ⟨v, hv, hrj⟩ := (hprops j).1
      ⟨hjorder, by simpa using hvslen ▸ hj⟩
    rw [hresj] at hrj
    have : some vs[j] = v := by
      have h3 := Option.some.inj hrj
      exact h3 ▸ rfl
    refine ⟨v, hv, ?_⟩
    rw [List.getElem?_eq_getElem hj, this]

/-- When every `data` response carries at most as many items as the batch has
inputs, the padding in `dataEmbeddings` makes the output length exactly the
input length. -/
theorem dataEmbeddings_length (items : List (Nat × List Int))
    (texts : List String) (hle : items.length ≤ texts.length) :
    (dataEmbeddings items texts).2.length = texts.length := by
  have hlen : ((List.insertionSort (fun a b => a.1 ≤ b.1) items).map
      Prod.snd).length = items.length := by
    rw [List.length_map, List.length_insertionSort]
  unfold dataEmbeddings
  dsimp only
  split
  case isTrue h =>
    simp only [List.length_append, List.length_replicate]
    omega
  case isFalse h =>
    simp only [ne_eq, not_not] at h
    exact h

/-- A successful return of the retry loop has exactly the input length,
provided every `data` response is at most input-sized. -/
theorem attemptLoop_ok_length (script : Nat → Attempt) (texts : List String)
    (hsmall : ∀ n items, script n = Attempt.data items →
      items.length ≤ texts.length) :
    ∀ attempt rem v, (attemptLoop script texts attempt rem).2 = Except.ok v →
      v.length = texts.length := by
  intro attempt rem
  induction rem generalizing attempt with
  | zero => intro v hv; exact absurd hv (by simp [attemptLoop])
  | succ r ih =>
    intro v hv
    rw [attemptLoop] at hv
    cases hs : script attempt with
    | raiseExc m => rw [hs] at hv; exact ih (attempt + 1) v hv
    | noData => rw [hs] at hv; exact ih (attempt + 1) v hv
    | data items =>
      rw [hs] at hv
      simp only [Except.ok.injEq] at hv
      rw [← hv]
      exact dataEmbeddings_length items texts (hsmall attempt items hs)

theorem collectResults_cons_error (res : Nat → Except String (List β))
    (i : Nat) (rest : List Nat) (acc : List (Option (List β))) (e : String)
    (h : res i = Except.error e) :
    collectResults res (i :: rest) acc = Except.error e := by
  rw [collectResults, h]

theorem embedDocuments_collect_ok (prod : Nat → List α → Except String (List β))
    (batchSize : Nat) (order : List Nat) (texts : List α)
    (results : List (Option (List β)))
    (h : collectResults (fun i => prod i ((toBatches batchSize texts).getD i []))
      order (List.replicate (toBatches batchSize texts).length none) =
      Except.ok results) :
    embedDocuments prod batchSize order texts = flattenResults results := by
  unfold embedDocuments
  rw [h]

theorem embedDocuments_collect_error
    (prod : Nat → List α → Except String (List β))
    (batchSize : Nat) (order : List Nat) (texts : List α) (e : String)
    (h : collectResults (fun i => prod i ((toBatches batchSize texts).getD i []))
      order (List.replicate (toBatches batchSize texts).length none) =
      Except.error e) :
    embedDocuments prod batchSize order texts = Except.error e := by
  unfold embedDocuments
  rw [h]

/-- C1: `embed_documents` partitions the inputs into contiguous batches of
size at most `batchSize` preserving input order — batch `i` covers inputs
`[i*batchSize, (i+1)*batchSize)` — and when the producer succeeds on every
batch returning exactly one output per input in that batch order, the
flattened result is the producer output for every input in original input
order, whatever the completion order of the batch futures. -/
theorem embedDocuments_partition_and_order
    (prod : Nat → List α → Except String (List β)) (f : α → β)
    (batchSize : Nat) (order : List Nat) (texts : List α)
    (hb : 1 ≤ batchSize)
    (horder : order.Perm (List.range (toBatches batchSize texts).length))
    (hprod : ∀ i, i < (toBatches batchSize texts).length →
      prod i ((toBatches batchSize texts).getD i []) =
        Except.ok (((toBatches batchSize texts).getD i []).map f)) :
    (toBatches batchSize texts).flatten = texts ∧
    (∀ l ∈ toBatches batchSize texts, l.length ≤ batchSize) ∧
    (∀ i, (toBatches batchSize texts).getD i [] =
      (texts.drop (i * batchSize)).take batchSize) ∧
    embedDocuments prod batchSize order texts = Except.ok (texts.map f) := by
  refine ⟨toBatches_flatten batchSize hb texts,
    toBatches_sizes_le batchSize texts,
    fun i => toBatches_getD batchSize hb i texts, ?_⟩
  have hmem : ∀ i, i ∈ order ↔ i < (toBatches batchSize texts).length := by
    intro i
    rw [horder.mem_iff, List.mem_range]
  have hall : ∀ i ∈ order,
      (fun i => prod i ((toBatches batchSize texts).getD i [])) i =
        Except.ok (((toBatches batchSize texts).getD i []).map f) :=
    fun i hi => hprod i ((hmem i).1 hi)
  have hcol := collectResults_all_ok
    (fun i => prod i ((toBatches batchSize texts).getD i []))
    (fun i => ((toBatches batchSize texts).getD i []).map f) order
    (List.replicate (toBatches batchSize texts).length none) hall
  rw [embedDocuments_collect_ok prod batchSize order texts _ hcol]
  have hfold : (order.foldl
      (fun a i => a.set i (some (((toBatches batchSize texts).getD i []).map f)))
      (List.replicate (toBatches batchSize texts).length none)) =
      ((List.range (toBatches batchSize texts).length).map
        (fun j => ((toBatches batchSize texts).getD j []).map f)).map some := by
    apply List.ext_getElem?
    intro j
    rw [foldl_set_getElem?]
    simp only [List.length_replicate, List.getElem?_map]
    by_cases hj : j < (toBatches batchSize texts).length
    · rw [if_pos ⟨(hmem j).2 hj, hj⟩, List.getElem?_range hj]
      rfl
    · rw [if_neg (fun hc => hj hc.2), List.getElem?_replicate, if_neg hj]
      have h2 : (List.range (toBatches batchSize texts).length)[j]? = none :=
        List.getElem?_eq_none (by simpa using Nat.le_of_not_lt hj)
      rw [h2]
      rfl
  rw [hfold, flattenResults_map_some]
  have h3 : (List.range (toBatches batchSize texts).length).map
      (fun j => ((toBatches batchSize texts).getD j []).map f) =
      (toBatches batchSize texts).map (List.map f) := by
    have h4 := congrArg (List.map (List.map f))
      (range_map_getD (toBatches batchSize texts) [])
    rw [List.map_map] at h4
    exact h4
  rw [h3, ← List.map_flatten, toBatches_flatten batchSize hb texts]

/-- Witness for C1, the scenario from the spec: five inputs, batch size 2,
batches complete out of order, and the output is the per-input producer
image in input order. -/
theorem embedDocuments_partition_and_order_witness :
    CNAI.embedDocuments
      (fun _ batch => Except.ok (batch.map (fun s => s ++ "!")))
      2 [2, 0, 1] ["a", "b", "c", "d", "e"] =
      Except.ok ["a!", "b!", "c!", "d!", "e!"] := by
  have h := embedDocuments_partition_and_order
    (fun _ batch => Except.ok (batch.map (fun s => s ++ "!")))
    (fun s => s ++ "!") 2 [2, 0, 1] ["a", "b", "c", "d", "e"]
    (by decide) (by simp [toBatches]; decide) (fun i _ => rfl)
  simpa using h.2.2.2

/-- An API behaviour returning two embeddings for every batch. -/
def oversizedScript : Nat → Nat → Attempt := fun _ _ =>
  Attempt.data [(0, [1]), (1, [2])]

/-- C2 counterexample: for the single input `["a"]` (batch size 1) with a
first attempt returning two embeddings, `embed_documents` returns normally
with a flattened list of length 2 ≠ 1.  No post-condition checks the final
length before return, and `_call_api_single_batch` only pads shortfalls, it
does not trim an excess. -/
theorem embedDocuments_length_postcondition_cex :
    CNAI.embedDocumentsApi oversizedScript 1 [0] ["a"] =
      Except.ok [[1], [2]] ∧
    ¬ (([[1], [2]] : List (List Int)).length = (["a"] : List String).length) := by
  constructor
  · have hbatch : toBatches 1 ["a"] = [["a"]] := by simp [toBatches]
    unfold embedDocumentsApi embedDocuments
    rw [hbatch]
    rfl
  · decide

/-- C2 (amended): when every successful producer result for a batch has
exactly the batch input count — which `_call_api_single_batch` guarantees
whenever each `data` response carries at most as many items as the batch has
inputs, by zero-padding shortfalls — a normal return of `embed_documents`
has as many outputs as inputs.  The code performs no final length check, and
an oversized batch response passes through unchecked. -/
theorem embedDocuments_length_eq_of_batchwise_exact
    (prod : Nat → List String → Except String (List (List Int)))
    (batchSize : Nat) (order : List Nat) (texts : List String)
    (hb : 1 ≤ batchSize)
    (hexact : ∀ i v, prod i ((toBatches batchSize texts).getD i []) =
      Except.ok v → v.length = ((toBatches batchSize texts).getD i []).length)
    (out : List (List Int))
    (hout : embedDocuments prod batchSize order texts = Except.ok out) :
    out.length = texts.length ∧
    ∀ (script : Nat → Attempt) (ts : List String) (v : List (List Int)),
      (∀ n items, script n = Attempt.data items → items.length ≤ ts.length) →
      (callApiSingleBatch script ts).2 = Except.ok v →
        v.length = ts.length := by
  constructor
  · obtain ⟨vs, hvslen, hflat, hvals⟩ :=
      embedDocuments_ok_elim prod batchSize order texts out hout
    have hlens : vs.map List.length =
        (toBatches batchSize texts).map List.length := by
      apply List.ext_getElem?
      intro j
      rw [List.getElem?_map, List.getElem?_map]
      by_cases hj : j < vs.length
      · obtain ⟨v, hv, hvj⟩ := hvals j hj
        have hjb : j < (toBatches batchSize texts).length := hvslen ▸ hj
        have hgd : (toBatches batchSize texts).getD j [] =
            (toBatches batchSize texts)[j] := by
          rw [List.getD_eq_getElem?_getD, List.getElem?_eq_getElem hjb]
          rfl
        rw [hvj, List.getElem?_eq_getElem hjb]
        have hlenv := hexact j v hv
        rw [hgd] at hlenv
        simp [hlenv]
      · have h1 : vs[j]? = none := List.getElem?_eq_none (Nat.le_of_not_lt hj)
        have h2 : (toBatches batchSize texts)[j]? = none :=
          List.getElem?_eq_none (by omega)
        rw [h1, h2]; rfl
    rw [hflat, List.length_flatten, hlens, ← List.length_flatten,
      toBatches_flatten batchSize hb texts]
  · intro script ts v hsmall hok
    exact attemptLoop_ok_length script ts hsmall 0 maxRetries v hok

/-- Witness for the amended C2: three inputs in two batches, an exact
producer, batches completing out of order; the output has the input length. -/
theorem embedDocuments_length_eq_of_batchwise_exact_witness :
    (CNAI.embedDocuments
        (fun _ batch => Except.ok (batch.map (fun _ => ([0] : List Int))))
        2 [1, 0] ["a", "b", "c"] = Except.ok [[0], [0], [0]]) ∧
    ([[0], [0], [0]] : List (List Int)).length =
      (["a", "b", "c"] : List String).length := by
  have hrun : CNAI.embedDocuments
      (fun _ batch => Except.ok (batch.map (fun _ => ([0] : List Int))))
      2 [1, 0] ["a", "b", "c"] = Except.ok [[0], [0], [0]] := by
    have hbatch : toBatches 2 ["a", "b", "c"] = [["a", "b"], ["c"]] := by
      simp [toBatches]
    unfold embedDocuments
    rw [hbatch]
    rfl
  refine ⟨hrun, ?_⟩
  exact (embedDocuments_length_eq_of_batchwise_exact _ 2 [1, 0] _ (by decide)
    (fun i v h => by
      injection h with h
      rw [← h, List.length_map]) _ hrun).1

/-- C3: when the first attempt responds with a `data` list shorter than the
batch input list, `_call_api_single_batch` does not raise: it prints a
padding warning and returns the sorted embeddings extended with zero-valued
vectors, so the returned length equals the batch input length. -/
theorem callApiSingleBatch_pads_shortfall (script : Nat → Attempt)
    (texts : List String) (items : List (Nat × List Int))
    (h0 : script 0 = Attempt.data items)
    (hshort : items.length < texts.length) :
    callApiSingleBatch script texts =
      ([ApiLog.warnPadding items.length texts.length],
        Except.ok
          (((List.insertionSort (fun a b => a.1 ≤ b.1) items).map Prod.snd) ++
            List.replicate (texts.length - items.length)
              (List.replicate
                (match (List.insertionSort (fun a b => a.1 ≤ b.1) items).map
                    Prod.snd with
                  | [] => 1024
                  | v :: _ => v.length) 0))) ∧
    ∀ v, (callApiSingleBatch script texts).2 = Except.ok v →
      v.length = texts.length := by
  have hlen : ((List.insertionSort (fun a b => a.1 ≤ b.1) items).map
      Prod.snd).length = items.length := by
    rw [List.length_map, List.length_insertionSort]
  have hcall : callApiSingleBatch script texts =
      ((dataEmbeddings items texts).1,
        Except.ok (dataEmbeddings items texts).2) := by
    unfold callApiSingleBatch maxRetries
    rw [attemptLoop, h0]
  have hemb : dataEmbeddings items texts =
      ([ApiLog.warnPadding items.length texts.length],
        ((List.insertionSort (fun a b => a.1 ≤ b.1) items).map Prod.snd) ++
          List.replicate (texts.length - items.length)
            (List.replicate
              (match (List.insertionSort (fun a b => a.1 ≤ b.1) items).map
                  Prod.snd with
                | [] => 1024
                | v :: _ => v.length) 0)) := by
    unfold dataEmbeddings
    dsimp only
    rw [if_pos (by omega), hlen]
  constructor
  · rw [hcall, hemb]
  · intro v hv
    rw [hcall] at hv
    injection hv with hv
    rw [← hv]
    exact dataEmbeddings_length items texts (Nat.le_of_lt hshort)

/-- Witness for C3: a two-input batch answered with a single embedding is
padded with one zero vector and returned without raising. -/
theorem callApiSingleBatch_pads_shortfall_witness :
    CNAI.callApiSingleBatch (fun _ => Attempt.data [(0, [7])]) ["x", "y"] =
      ([ApiLog.warnPadding 1 2], Except.ok [[7], [0]]) := by
  have h := callApiSingleBatch_pads_shortfall
    (fun _ => Attempt.data [(0, [7])]) ["x", "y"] [(0, [7])] rfl (by decide)
  simpa using h.1

/-- C4: when every attempt raises, `_call_api_single_batch` performs exactly
`maxRetries = 3` attempts, each logged and followed by the fixed
`time.sleep(1)` backoff, and only then raises `RuntimeError`; and
`embed_documents` re-raises the failure of a completed failing batch, so the
whole call fails with no partial result. -/
theorem callApiSingleBatch_raises_after_max_retries (script : Nat → Attempt)
    (texts : List String)
    (hfail : ∀ i, ∃ m, script i = Attempt.raiseExc m) :
    maxRetries = 3 ∧
    callApiSingleBatch script texts =
      ([ApiLog.errAttempt 0, ApiLog.sleepBackoff, ApiLog.errAttempt 1,
        ApiLog.sleepBackoff, ApiLog.errAttempt 2, ApiLog.sleepBackoff],
        Except.error "Failed to embed batch after max_retries attempts.") ∧
    ∀ (allScripts : Nat → Nat → Attempt) (batchSize j : Nat)
      (rest : List Nat) (docs : List String), allScripts j = script →
      embedDocumentsApi allScripts batchSize (j :: rest) docs =
        Except.error "Failed to embed batch after max_retries attempts." := by
  obtain ⟨m0, h0⟩ := hfail 0
  obtain ⟨m1, h1⟩ := hfail 1
  obtain ⟨m2, h2⟩ := hfail 2
  have hcall : ∀ ts : List String, callApiSingleBatch script ts =
      ([ApiLog.errAttempt 0, ApiLog.sleepBackoff, ApiLog.errAttempt 1,
        ApiLog.sleepBackoff, ApiLog.errAttempt 2, ApiLog.sleepBackoff],
        Except.error "Failed to embed batch after max_retries attempts.") := by
    intro ts
    simp [callApiSingleBatch, maxRetries, attemptLoop, h0, h1, h2]
  refine ⟨rfl, hcall texts, ?_⟩
  intro allScripts batchSize j rest docs hj
  unfold embedDocumentsApi
  apply embedDocuments_collect_error
  have hres : (callApiSingleBatch (allScripts j)
      ((toBatches batchSize docs).getD j [])).2 =
      Except.error "Failed to embed batch after max_retries attempts." := by
    rw [hj, hcall]
  exact collectResults_cons_error _ j rest _ _ hres

/-- Witness for C4: a script that raises on every attempt for every batch
makes the whole `embed_documents` call fail. -/
theorem callApiSingleBatch_raises_after_max_retries_witness :
    CNAI.embedDocumentsApi (fun _ _ => Attempt.raiseExc "boom") 2 [0, 1]
        ["a", "b", "c"] =
      Except.error "Failed to embed batch after max_retries attempts." := by
  have h := callApiSingleBatch_raises_after_max_retries
    (fun _ => Attempt.raiseExc "boom") ["a", "b", "c"]
    (fun _ => ⟨"boom", rfl⟩)
  exact h.2.2 (fun _ _ => Attempt.raiseExc "boom") 2 0 [1] ["a", "b", "c"] rfl

end CNAI

namespace GPU

/-- The configuration slice read by `GpuAdaptiveManager.__init__`:
`config['adaptive_gpu']['enabled']`, `config['execution']['concurrency']`
and the `adaptive_gpu` options, with the `.get` defaults
(`min_concurrency` 1, `step_size` 2, `cool_down` 5). -/
structure Config where
  enabled : Bool
  concurrency : Nat
  min_concurrency : Nat := 1
  step_size : Nat := 2
  cool_down : Nat := 5
deriving Repr, DecidableEq

/-- The state of `GpuAdaptiveManager` together with the accounting of its
`threading.Semaphore(max_capacity)`: `sem_available` is the semaphore
counter; `held` and `withdrawn` are ghost fields recording who owns the
missing permits — `held` counts permits held by in-flight operations,
`withdrawn` counts permits acquired by `_shrink_capacity` and never
released. -/
structure Manager where
  enabled : Bool
  max_capacity : Nat
  current_capacity : Nat
  min_capacity : Nat
  step_size : Nat
  cool_down : Nat
  sem_available : Nat
  held : Nat
  withdrawn : Nat
deriving Repr, DecidableEq

/-- `GpuAdaptiveManager.__init__`. -/
def mkManager (cfg : Config) : Manager :=
  { enabled := cfg.enabled
    max_capacity := cfg.concurrency
    current_capacity := cfg.concurrency
    min_capacity := cfg.min_concurrency
    step_size := cfg.step_size
    cool_down := cfg.cool_down
    sem_available := cfg.concurrency
    held := 0
    withdrawn := 0 }

/-- Console output of `_shrink_capacity`. -/
inductive GpuLog where
  | alertAtMinimum (minCap : Nat)
  | reducing (fromCap toCap : Nat)
deriving Repr, DecidableEq

/-- `GpuAdaptiveManager._shrink_capacity` (the body runs under `self.lock`):
at or below the floor it prints an alert and returns unchanged; otherwise it
lowers `current_capacity` by at most `step_size`, not below `min_capacity`,
and withdraws the difference from the semaphore by `reduce_amount`
non-blocking acquires — an acquire that finds no permit available is
skipped, so only `min reduce_amount sem_available` permits are actually
withdrawn.  It never raises. -/
def shrinkCapacity (m : Manager) : Manager × List GpuLog :=
  if m.current_capacity ≤ m.min_capacity then
    (m, [GpuLog.alertAtMinimum m.min_capacity])
  else
    let new_capacity := max m.min_capacity (m.current_capacity - m.step_size)
    let reduce_amount := m.current_capacity - new_capacity
    let got := min reduce_amount m.sem_available
    ({ m with
        current_capacity := new_capacity
        sem_available := m.sem_available - got
        withdrawn := m.withdrawn + got },
      [GpuLog.reducing m.current_capacity new_capacity])

/-- `n` consecutive `_shrink_capacity` calls. -/
def shrinkN (m : Manager) : Nat → Manager
  | 0 => m
  | n + 1 => (shrinkCapacity (shrinkN m n)).1

/-- One interleaving event on the shared manager: an operation acquires a
permit (possible only when the semaphore counter is positive — a blocked
`acquire` has simply not happened yet, so it is a no-op here), an operation
releases the permit it holds, or some thread runs `_shrink_capacity`. -/
inductive Event where
  | acquire
  | release
  | shrink
deriving Repr, DecidableEq

/-- Semantics of one event: `threading.Semaphore.acquire` decrements the
counter, `release` always increments it (a released permit goes back to the
pool unconditionally), `shrink` is `_shrink_capacity`. -/
def step (m : Manager) : Event → Manager
  | Event.acquire =>
    if m.sem_available = 0 then m
    else { m with sem_available := m.sem_available - 1, held := m.held + 1 }
  | Event.release =>
    if m.held = 0 then m
    else { m with held := m.held - 1, sem_available := m.sem_available + 1 }
  | Event.shrink => (shrinkCapacity m).1

/-- A whole interleaving, run from an initial manager. -/
def run (m : Manager) (events : List Event) : Manager :=
  events.foldl step m

/-! Helper lemmas about `_shrink_capacity` and the event semantics. -/

theorem shrinkCapacity_min_eq (m : Manager) :
    (shrinkCapacity m).1.min_capacity = m.min_capacity := by
  unfold shrinkCapacity
  split <;> rfl

theorem shrinkCapacity_max_eq (m : Manager) :
    (shrinkCapacity m).1.max_capacity = m.max_capacity := by
  unfold shrinkCapacity
  split <;> rfl

theorem shrinkCapacity_cool_down_eq (m : Manager) :
    (shrinkCapacity m).1.cool_down = m.cool_down := by
  unfold shrinkCapacity
  split <;> rfl

theorem shrinkCapacity_held_eq (m : Manager) :
    (shrinkCapacity m).1.held = m.held := by
  unfold shrinkCapacity
  split <;> rfl

theorem shrinkCapacity_current_le (m : Manager) :
    (shrinkCapacity m).1.current_capacity ≤ m.current_capacity := by
  unfold shrinkCapacity
  split
  · exact Nat.le_refl _
  · next h => simp only; omega

theorem shrinkCapacity_min_le_current (m : Manager)
    (h : m.min_capacity ≤ m.current_capacity) :
    (shrinkCapacity m).1.min_capacity ≤
      (shrinkCapacity m).1.current_capacity := by
  unfold shrinkCapacity
  split
  · exact h
  · next hgt => simp only; omega

theorem shrinkCapacity_balance (m : Manager)
    (h : m.held + m.sem_available + m.withdrawn = m.max_capacity) :
    (shrinkCapacity m).1.held + (shrinkCapacity m).1.sem_available +
      (shrinkCapacity m).1.withdrawn = (shrinkCapacity m).1.max_capacity := by
  unfold shrinkCapacity
  split
  · exact h
  · simp only; omega

theorem shrinkN_min_eq (m : Manager) (n : Nat) :
    (shrinkN m n).min_capacity = m.min_capacity := by
  induction n with
  | zero => rfl
  | succ n ih => rw [shrinkN, shrinkCapacity_min_eq, ih]

theorem shrinkN_max_eq (m : Manager) (n : Nat) :
    (shrinkN m n).max_capacity = m.max_capacity := by
  induction n with
  | zero => rfl
  | succ n ih => rw [shrinkN, shrinkCapacity_max_eq, ih]

theorem shrinkN_current_le (m : Manager) (n : Nat) :
    (shrinkN m (n + 1)).current_capacity ≤ (shrinkN m n).current_capacity :=
  shrinkCapacity_current_le (shrinkN m n)

theorem shrinkN_min_le_current (m : Manager) (n : Nat)
    (h : m.min_capacity ≤ m.current_capacity) :
    (shrinkN m n).min_capacity ≤ (shrinkN m n).current_capacity := by
  induction n with
  | zero => exact h
  | succ n ih => exact shrinkCapacity_min_le_current (shrinkN m n) ih

theorem shrinkN_current_le_start (m : Manager) (n : Nat) :
    (shrinkN m n).current_capacity ≤ m.current_capacity := by
  induction n with
  | zero => exact Nat.le_refl _
  | succ n ih => exact Nat.le_trans (shrinkCapacity_current_le (shrinkN m n)) ih

theorem step_balance (m : Manager) (e : Event)
    (h : m.held + m.sem_available + m.withdrawn = m.max_capacity) :
    (step m e).held + (step m e).sem_available + (step m e).withdrawn =
      (step m e).max_capacity := by
  cases e with
  | acquire =>
    simp only [step]
    split
    · exact h
    · dsimp only
      omega
  | release =>
    simp only [step]
    split
    · exact h
    · dsimp only
      omega
  | shrink =>
    simp only [step]
    exact shrinkCapacity_balance m h

theorem run_balance (m : Manager) (events : List Event)
    (h : m.held + m.sem_available + m.withdrawn = m.max_capacity) :
    (run m events).held + (run m events).sem_available +
      (run m events).withdrawn = (run m events).max_capacity := by
  induction events generalizing m with
  | nil => exact h
  | cons e rest ih => exact ih (step m e) (step_balance m e h)

theorem step_withdrawn_current_frame (m : Manager) (e : Event)
    (he : e ≠ Event.shrink) :
    (step m e).withdrawn = m.withdrawn ∧
    (step m e).current_capacity = m.current_capacity := by
  cases e with
  | acquire =>
    simp only [step]
    split <;> exact ⟨rfl, rfl⟩
  | release =>
    simp only [step]
    split <;> exact ⟨rfl, rfl⟩
  | shrink => exact absurd rfl he

/-- A configuration whose floor `min_concurrency` exceeds the ceiling
`concurrency`; `__init__` performs no validation. -/
def floorAboveCeilingCfg : Config :=
  { enabled := true, concurrency := 2, min_concurrency := 5 }

/-- C5 counterexample: with `concurrency = 2` and `min_concurrency = 5`,
`min_capacity ≤ current_capacity` already fails at construction —
`GpuAdaptiveManager.__init__` does not validate the configured floor against
the ceiling. -/
theorem gpuManager_floor_invariant_cex :
    ¬ ((mkManager floorAboveCeilingCfg).min_capacity ≤
        (mkManager floorAboveCeilingCfg).current_capacity) := by decide

/-- C5 (amended): provided the configured floor does not exceed the
configured ceiling, `min_capacity ≤ current_capacity ≤ max_capacity` holds
at construction and after every sequence of `_shrink_capacity` calls,
`current_capacity` never increases, and a shrink call at (or below) the
floor only logs an alert and returns with the state unchanged —
`_shrink_capacity` is total and never raises. -/
theorem gpuManager_capacity_invariant (cfg : Config) (n : Nat)
    (hmin : cfg.min_concurrency ≤ cfg.concurrency) :
    ((mkManager cfg).min_capacity ≤ (mkManager cfg).current_capacity ∧
      (mkManager cfg).current_capacity ≤ (mkManager cfg).max_capacity) ∧
    ((shrinkN (mkManager cfg) n).min_capacity ≤
        (shrinkN (mkManager cfg) n).current_capacity ∧
      (shrinkN (mkManager cfg) n).current_capacity ≤
        (shrinkN (mkManager cfg) n).max_capacity) ∧
    (shrinkN (mkManager cfg) (n + 1)).current_capacity ≤
      (shrinkN (mkManager cfg) n).current_capacity ∧
    (∀ m : Manager, m.current_capacity ≤ m.min_capacity →
      shrinkCapacity m = (m, [GpuLog.alertAtMinimum m.min_capacity])) := by
  have hbase : (mkManager cfg).min_capacity ≤
      (mkManager cfg).current_capacity := hmin
  refine ⟨⟨hmin, Nat.le_refl _⟩,
    ⟨shrinkN_min_le_current _ n hbase, ?_⟩, shrinkN_current_le _ n, ?_⟩
  · rw [shrinkN_max_eq]
    exact shrinkN_current_le_start _ n
  · intro m h
    unfold shrinkCapacity
    rw [if_pos h]

/-- The shrink scenario from the spec: ceiling 8, floor 2, step 2. -/
def scenarioCfg : Config :=
  { enabled := true, concurrency := 8, min_concurrency := 2, step_size := 2 }

/-- Witness for the amended C5: three shrinks take capacity 8 → 6 → 4 → 2,
the invariant holds there, and a fourth shrink leaves capacity at 2. -/
theorem gpuManager_capacity_invariant_witness :
    scenarioCfg.min_concurrency ≤ scenarioCfg.concurrency ∧
    ((shrinkN (mkManager scenarioCfg) 3).min_capacity ≤
        (shrinkN (mkManager scenarioCfg) 3).current_capacity ∧
      (shrinkN (mkManager scenarioCfg) 3).current_capacity ≤
        (shrinkN (mkManager scenarioCfg) 3).max_capacity) ∧
    (shrinkN (mkManager scenarioCfg) 3).current_capacity = 2 ∧
    (shrinkN (mkManager scenarioCfg) 4).current_capacity = 2 :=
  ⟨by decide, (gpuManager_capacity_invariant scenarioCfg 3 (by decide)).2.1,
    by decide, by decide⟩

/-- The skipped-withdrawal scenario: two permits, floor zero, step one. -/
def skipScenarioCfg : Config :=
  { enabled := true, concurrency := 2, min_concurrency := 0, step_size := 1 }

/-- Both permits held, then a shrink (whose withdrawal is skipped), then both
releases, then two fresh acquires. -/
def skipTrace : List Event :=
  [Event.acquire, Event.acquire, Event.shrink, Event.release,
    Event.release, Event.acquire, Event.acquire]

/-- C6 counterexample: two operations hold both permits; a shrink lowers
`current_capacity` 2 → 1 but its non-blocking withdrawal finds no permit and
is skipped; both holders release and two new operations acquire.  Now
`held = 2 > current_capacity = 1` while `withdrawn = 0`, although
`max_capacity - current_capacity = 1`: the next holder to release WAS
replaced — `Semaphore.release` returns the permit to the pool — so the
deficit is never applied. -/
theorem permit_withdrawal_skip_cex :
    (run (mkManager skipScenarioCfg) skipTrace).withdrawn = 0 ∧
    (run (mkManager skipScenarioCfg) skipTrace).current_capacity = 1 ∧
    (run (mkManager skipScenarioCfg) skipTrace).held = 2 ∧
    (run (mkManager skipScenarioCfg) skipTrace).max_capacity -
      (run (mkManager skipScenarioCfg) skipTrace).current_capacity = 1 := by
  decide

/-- C6 (amended): at every instant
`held + available + withdrawn = max_capacity` (permit conservation), but a
withdrawal attempt skipped for lack of an available permit is lost, not
deferred: acquire and release events never change `withdrawn` or
`current_capacity`, and a release unconditionally returns the permit to the
pool, so the permanently withdrawn count can stay below
`max_capacity - current_capacity` indefinitely. -/
theorem permit_accounting_invariant (cfg : Config) (events : List Event) :
    ((run (mkManager cfg) events).held +
      (run (mkManager cfg) events).sem_available +
      (run (mkManager cfg) events).withdrawn =
      (run (mkManager cfg) events).max_capacity) ∧
    (∀ m : Manager, (step m Event.acquire).withdrawn = m.withdrawn ∧
      (step m Event.release).withdrawn = m.withdrawn ∧
      (step m Event.acquire).current_capacity = m.current_capacity ∧
      (step m Event.release).current_capacity = m.current_capacity ∧
      (0 < m.held →
        (step m Event.release).sem_available = m.sem_available + 1)) := by
  constructor
  · apply run_balance
    dsimp [mkManager]
    omega
  · intro m
    obtain ⟨h1, h2⟩ := step_withdrawn_current_frame m Event.acquire (by simp)
    obtain ⟨h3, h4⟩ := step_withdrawn_current_frame m Event.release (by simp)
    refine ⟨h1, h3, h2, h4, fun hheld => ?_⟩
    simp only [step]
    rw [if_neg (by omega)]

/-- Witness for the amended C6: conservation holds on the
skipped-withdrawal trace, and a release from its final state (which holds
two permits) puts a permit back into the pool. -/
theorem permit_accounting_invariant_witness :
    ((run (mkManager skipScenarioCfg) skipTrace).held +
      (run (mkManager skipScenarioCfg) skipTrace).sem_available +
      (run (mkManager skipScenarioCfg) skipTrace).withdrawn =
      (run (mkManager skipScenarioCfg) skipTrace).max_capacity) ∧
    0 < (run (mkManager skipScenarioCfg) skipTrace).held ∧
    (step (run (mkManager skipScenarioCfg) skipTrace)
        Event.release).sem_available =
      (run (mkManager skipScenarioCfg) skipTrace).sem_available + 1 :=
  ⟨(permit_accounting_invariant skipScenarioCfg skipTrace).1,
    by decide,
    ((permit_accounting_invariant skipScenarioCfg skipTrace).2
      (run (mkManager skipScenarioCfg) skipTrace)).2.2.2.2 (by decide)⟩

/-- One outcome of the wrapped GPU operation `func` in
`run_with_protection`: a normal return, a `torch.cuda.OutOfMemoryError`, or
any other exception. -/
inductive OpOutcome (ρ : Type) where
  | ok (r : ρ)
  | oom
  | raiseExc (msg : String)
deriving Repr, DecidableEq

/-- What `run_with_protection` can raise to its caller. -/
inductive OpError where
  | oomError
  | otherError (msg : String)
deriving Repr, DecidableEq

/-- Observable actions of `run_with_protection`, in program order. -/
inductive ProtEvent where
  | acquirePermit
  | emptyCache
  | shrinkCall
  | sleepCoolDown (secs : Nat)
  | releasePermit
deriving Repr, DecidableEq

/-- The `while True` loop of `run_with_protection` on the protected path,
one script element per attempt of `func`.  Per attempt: acquire a permit;
on a normal return, return it (the `finally` releases); on
`torch.cuda.OutOfMemoryError`, run `torch.cuda.empty_cache()`,
`_shrink_capacity()`, `time.sleep(cool_down)`, and only then does the
`continue` trigger the `finally` release before the loop retries from the
acquire; on any other exception re-raise (the `finally` releases).  `none`
models the loop still retrying when the script runs out. -/
def protectedLoop : List (OpOutcome ρ) → Manager →
    Manager × List ProtEvent × Option (Except OpError ρ)
  | [], m => (m, [], none)
  | o :: rest, m =>
    let m1 := step m Event.acquire
    match o with
    | OpOutcome.ok r =>
      (step m1 Event.release,
        [ProtEvent.acquirePermit, ProtEvent.releasePermit],
        some (Except.ok r))
    | OpOutcome.raiseExc msg =>
      (step m1 Event.release,
        [ProtEvent.acquirePermit, ProtEvent.releasePermit],
        some (Except.error (OpError.otherError msg)))
    | OpOutcome.oom =>
      let m2 := step m1 Event.shrink
      let m3 := step m2 Event.release
      let next := protectedLoop rest m3
      (next.1,
        ProtEvent.acquirePermit :: ProtEvent.emptyCache ::
          ProtEvent.shrinkCall :: ProtEvent.sleepCoolDown m2.cool_down ::
          ProtEvent.releasePermit :: next.2.1,
        next.2.2)

/-- What running `func` directly (no permit, no retry) yields: the first
scripted outcome, with an OOM propagating as itself. -/
def directOutcome : List (OpOutcome ρ) → Option (Except OpError ρ)
  | [] => none
  | OpOutcome.ok r :: _ => some (Except.ok r)
  | OpOutcome.oom :: _ => some (Except.error OpError.oomError)
  | OpOutcome.raiseExc msg :: _ => some (Except.error (OpError.otherError msg))

/-- `GpuAdaptiveManager.run_with_protection`: when the feature is disabled
or no GPU is present, `func` runs directly with no permit and no retry;
otherwise the protected retry loop runs. -/
def runWithProtection (cudaAvailable : Bool) (outcomes : List (OpOutcome ρ))
    (m : Manager) : Manager × List ProtEvent × Option (Except OpError ρ) :=
  if m.enabled = false ∨ cudaAvailable = false then
    (m, [], directOutcome outcomes)
  else
    protectedLoop outcomes m

/-- The event block of one failed (OOM) attempt. -/
def oomBlock (cd : Nat) : List ProtEvent :=
  [ProtEvent.acquirePermit, ProtEvent.emptyCache, ProtEvent.shrinkCall,
    ProtEvent.sleepCoolDown cd, ProtEvent.releasePermit]

/-- The manager-state effect of one failed (OOM) attempt. -/
def oomStep (m : Manager) : Manager :=
  step (step (step m Event.acquire) Event.shrink) Event.release

/-- `k` failed attempts in sequence. -/
def oomStepN (m : Manager) : Nat → Manager
  | 0 => m
  | n + 1 => oomStepN (oomStep m) n

theorem step_cool_down_eq (m : Manager) (e : Event) :
    (step m e).cool_down = m.cool_down := by
  cases e with
  | acquire =>
    simp only [step]
    split <;> rfl
  | release =>
    simp only [step]
    split <;> rfl
  | shrink =>
    simp only [step]
    exact shrinkCapacity_cool_down_eq m

theorem oomStep_cool_down_eq (m : Manager) :
    (oomStep m).cool_down = m.cool_down := by
  unfold oomStep
  rw [step_cool_down_eq, step_cool_down_eq, step_cool_down_eq]

theorem protectedLoop_replicate_oom {ρ : Type} (k : Nat)
    (rest : List (OpOutcome ρ)) (m : Manager) :
    protectedLoop (List.replicate k OpOutcome.oom ++ rest) m =
      ((protectedLoop rest (oomStepN m k)).1,
        (List.replicate k (oomBlock m.cool_down)).flatten ++
          (protectedLoop rest (oomStepN m k)).2.1,
        (protectedLoop rest (oomStepN m k)).2.2) := by
  induction k generalizing m with
  | zero => simp [oomStepN]
  | succ k ih =>
    rw [List.replicate_succ, List.cons_append, protectedLoop]
    rw [show step (step (step m Event.acquire) Event.shrink) Event.release =
      oomStep m from rfl]
    rw [ih (oomStep m)]
    have hcd : (oomStep m).cool_down = m.cool_down := oomStep_cool_down_eq m
    have hcd2 : (step (step m Event.acquire) Event.shrink).cool_down =
        m.cool_down := by
      rw [step_cool_down_eq, step_cool_down_eq]
    rw [oomStepN]
    simp [oomBlock, hcd, hcd2, List.replicate_succ, List.flatten_cons]

theorem protectedLoop_no_oom_error {ρ : Type} (outcomes : List (OpOutcome ρ))
    (m : Manager) :
    (protectedLoop outcomes m).2.2 ≠ some (Except.error OpError.oomError) := by
  induction outcomes generalizing m with
  | nil => simp [protectedLoop]
  | cons o rest ih =>
    cases o with
    | ok r => simp [protectedLoop]
    | raiseExc msg => simp [protectedLoop]
    | oom =>
      rw [protectedLoop]
      exact ih _

theorem protectedLoop_permit_balance {ρ : Type} (outcomes : List (OpOutcome ρ))
    (m : Manager) :
    ((protectedLoop outcomes m).2.1).count ProtEvent.acquirePermit =
      ((protectedLoop outcomes m).2.1).count ProtEvent.releasePermit := by
  induction outcomes generalizing m with
  | nil => rfl
  | cons o rest ih =>
    cases o with
    | ok r => rfl
    | raiseExc msg => rfl
    | oom =>
      rw [protectedLoop]
      dsimp only
      simp [List.count_cons, ih]

/-- C7: on the protected path (feature enabled and GPU present),
`run_with_protection` raises to its caller exactly the non-OOM exceptions of
the wrapped operation, immediately and without retry, after any number of
OOM rounds; an OOM is never surfaced — each one triggers `empty_cache`, a
`_shrink_capacity` call, a cool-down sleep and a retry from permit
acquisition, with no retry limit (any number `k` of rounds); the permit is
released on every exit path (acquire and release events balance).  With the
feature disabled or no GPU, the operation runs directly with no permit and
no retry wrapping. -/
theorem runWithProtection_error_semantics {ρ : Type} (m : Manager)
    (cuda : Bool) (hen : m.enabled = true) (hcuda : cuda = true) :
    (∀ (k : Nat) (msg : String),
      (runWithProtection cuda (List.replicate k (OpOutcome.oom (ρ := ρ)) ++
          [OpOutcome.raiseExc msg]) m).2.2 =
        some (Except.error (OpError.otherError msg)) ∧
      (runWithProtection cuda (List.replicate k (OpOutcome.oom (ρ := ρ)) ++
          [OpOutcome.raiseExc msg]) m).2.1 =
        (List.replicate k (oomBlock m.cool_down)).flatten ++
          [ProtEvent.acquirePermit, ProtEvent.releasePermit]) ∧
    (∀ (k : Nat) (r : ρ),
      (runWithProtection cuda (List.replicate k OpOutcome.oom ++
          [OpOutcome.ok r]) m).2.2 = some (Except.ok r) ∧
      (runWithProtection cuda (List.replicate k OpOutcome.oom ++
          [OpOutcome.ok r]) m).2.1 =
        (List.replicate k (oomBlock m.cool_down)).flatten ++
          [ProtEvent.acquirePermit, ProtEvent.releasePermit]) ∧
    (∀ outcomes : List (OpOutcome ρ),
      (runWithProtection cuda outcomes m).2.2 ≠
        some (Except.error OpError.oomError)) ∧
    (∀ outcomes : List (OpOutcome ρ),
      ((runWithProtection cuda outcomes m).2.1).count
          ProtEvent.acquirePermit =
        ((runWithProtection cuda outcomes m).2.1).count
          ProtEvent.releasePermit) ∧
    (∀ (m' : Manager) (cuda' : Bool) (outcomes : List (OpOutcome ρ)),
      m'.enabled = false ∨ cuda' = false →
        runWithProtection cuda' outcomes m' =
          (m', [], directOutcome outcomes)) := by
  have hprot : ∀ outcomes : List (OpOutcome ρ),
      runWithProtection cuda outcomes m = protectedLoop outcomes m := by
    intro outcomes
    unfold runWithProtection
    rw [if_neg (by simp [hen, hcuda])]
  refine ⟨?_, ?_, ?_, ?_, ?_⟩
  · intro k msg
    rw [hprot, protectedLoop_replicate_oom]
    exact ⟨rfl, rfl⟩
  · intro k r
    rw [hprot, protectedLoop_replicate_oom]
    exact ⟨rfl, rfl⟩
  · intro outcomes
    rw [hprot]
    exact protectedLoop_no_oom_error outcomes m
  · intro outcomes
    rw [hprot]
    exact protectedLoop_permit_balance outcomes m
  · intro m' cuda' outcomes hdis
    unfold runWithProtection
    rw [if_pos hdis]

/-- Witness for C7: one OOM round followed by a distinct failure propagates
that failure; an OOM followed by success is never surfaced. -/
theorem runWithProtection_error_semantics_witness :
    (mkManager scenarioCfg).enabled = true ∧
    (runWithProtection true
        (List.replicate 1 (OpOutcome.oom (ρ := Nat)) ++
          [OpOutcome.raiseExc "boom"]) (mkManager scenarioCfg)).2.2 =
      some (Except.error (OpError.otherError "boom")) ∧
    (runWithProtection true [OpOutcome.oom, OpOutcome.ok (5 : Nat)]
        (mkManager scenarioCfg)).2.2 ≠
      some (Except.error OpError.oomError) :=
  ⟨rfl,
    ((runWithProtection_error_semantics (mkManager scenarioCfg) true rfl
      rfl).1 1 "boom").1,
    (runWithProtection_error_semantics (mkManager scenarioCfg) true rfl
      rfl).2.2.1 [OpOutcome.oom, OpOutcome.ok 5]⟩

/-- C10: on the protected path, when an attempt raises OOM the permit
acquired for it is released only after the cool-down completes: the attempt
trace is acquire, `empty_cache`, `_shrink_capacity`, `sleep(cool_down)`,
release, in this order — the `finally` release runs only when `continue`
executes — and while the sleep happens the manager still counts the permit
(`held` is one above its pre-attempt value); after the release the loop
continues with the remaining attempts from permit acquisition. -/
theorem oom_release_after_cooldown {ρ : Type} (m : Manager) (cuda : Bool)
    (hen : m.enabled = true) (hcuda : cuda = true)
    (hsem : 0 < m.sem_available) (rest : List (OpOutcome ρ)) :
    ((runWithProtection cuda (OpOutcome.oom :: rest) m).2.1).take 5 =
      [ProtEvent.acquirePermit, ProtEvent.emptyCache, ProtEvent.shrinkCall,
        ProtEvent.sleepCoolDown m.cool_down, ProtEvent.releasePermit] ∧
    (step (step m Event.acquire) Event.shrink).held = m.held + 1 ∧
    (runWithProtection cuda (OpOutcome.oom :: rest) m).2.2 =
      (protectedLoop rest (step (step (step m Event.acquire) Event.shrink)
        Event.release)).2.2 := by
  have hrun : runWithProtection cuda (OpOutcome.oom :: rest) m =
      protectedLoop (OpOutcome.oom :: rest) m := by
    unfold runWithProtection
    rw [if_neg (by simp [hen, hcuda])]
  have hcd2 : (step (step m Event.acquire) Event.shrink).cool_down =
      m.cool_down := by
    rw [step_cool_down_eq, step_cool_down_eq]
  have h1 : (step m Event.acquire).held = m.held + 1 := by
    simp only [step]
    rw [if_neg (by omega)]
  refine ⟨?_, ?_, ?_⟩
  · rw [hrun, protectedLoop]
    dsimp only
    simp [List.take, hcd2]
  · calc (step (step m Event.acquire) Event.shrink).held
        = (step m Event.acquire).held := by
          simp only [step]
          exact shrinkCapacity_held_eq _
      _ = m.held + 1 := h1
  · rw [hrun]
    rfl

/-- Witness for C10: a concrete OOM-then-success run shows the release
strictly after the cool-down sleep. -/
theorem oom_release_after_cooldown_witness :
    (mkManager scenarioCfg).enabled = true ∧
    0 < (mkManager scenarioCfg).sem_available ∧
    ((runWithProtection true (OpOutcome.oom :: [OpOutcome.ok (42 : Nat)])
        (mkManager scenarioCfg)).2.1).take 5 =
      [ProtEvent.acquirePermit, ProtEvent.emptyCache, ProtEvent.shrinkCall,
        ProtEvent.sleepCoolDown (mkManager scenarioCfg).cool_down,
        ProtEvent.releasePermit] :=
  ⟨rfl, by decide,
    (oom_release_after_cooldown (mkManager scenarioCfg) true rfl rfl
      (by decide) [OpOutcome.ok 42]).1⟩

end GPU

namespace Orchestrator

/-- A cell of the question column: missing (`pd.isna`) or a string. -/
inductive CellValue where
  | nan
  | str (s : String)
deriving Repr, DecidableEq

/-- Python `str.strip()`: drop leading and trailing whitespace, modelled on
the character list of the string (kept structurally recursive so that
concrete runs compute). -/
def pyStrip (s : String) : String :=
  String.mk
    (((s.data.dropWhile Char.isWhitespace).reverse.dropWhile
      Char.isWhitespace).reverse)

/-- `process_single_case` from `main.py`: a missing or
whitespace-only-after-strip question short-circuits to the empty answer
without calling the pipeline; otherwise the retrieval-plus-generation
pipeline (the handler) runs, and an exception it raises is caught and
converted into the diagnostic answer `"Error: " ++ message`.  Returns the
`(index, answer)` pair. -/
def processSingleCase (handler : Nat → String → Except String String)
    (index : Nat) (question : CellValue) : Nat × String :=
  match question with
  | CellValue.nan => (index, "")
  | CellValue.str q =>
    if pyStrip q = "" then (index, "")
    else
      match handler index q with
      | Except.ok answer => (index, answer)
      | Except.error e => (index, "Error: " ++ e)

/-- The worker-pool section of `main`: one task per `(index, question)` row;
`results_buffer` collects `(index, answer)` pairs in the completion order
`order`; afterwards every buffered answer is written into the output column
(initialised to `""` for every row) at its own index. -/
def runMain (handler : Nat → String → Except String String)
    (questions : List CellValue) (order : List Nat) : List String :=
  (order.map (fun i =>
      processSingleCase handler i (questions.getD i CellValue.nan))).foldl
    (fun col p => col.set p.1 p.2) (List.replicate questions.length "")

theorem processSingleCase_fst (handler : Nat → String → Except String String)
    (index : Nat) (question : CellValue) :
    (processSingleCase handler index question).1 = index := by
  cases question with
  | nan => rfl
  | str q =>
    simp only [processSingleCase]
    by_cases h : pyStrip q = ""
    · rw [if_pos h]
    · rw [if_neg h]
      cases handler index q <;> rfl

theorem runMain_eq_foldl_set (handler : Nat → String → Except String String)
    (questions : List CellValue) (order : List Nat) :
    runMain handler questions order =
      order.foldl (fun col i => col.set i
        ((processSingleCase handler i (questions.getD i CellValue.nan)).2))
        (List.replicate questions.length "") := by
  unfold runMain
  rw [List.foldl_map]
  have hfun : (fun (col : List String) (i : Nat) =>
      col.set (processSingleCase handler i (questions.getD i CellValue.nan)).1
        (processSingleCase handler i (questions.getD i CellValue.nan)).2) =
      (fun (col : List String) (i : Nat) =>
        col.set i
          ((processSingleCase handler i (questions.getD i CellValue.nan)).2)) := by
    funext col i
    rw [processSingleCase_fst]
  rw [hfun]

/-- C8: for every collection of work items and every completion order of the
worker pool, an index whose handler raises gets the diagnostic answer
`"Error: <message>"` without aborting the run, every other non-skipped index
gets the handler's normal return value, and outputs are written back into
the column by index — never by completion order — so the final column is the
canonical input-ordered one whatever the completion order. -/
theorem runMain_order_and_isolation
    (handler : Nat → String → Except String String)
    (questions : List CellValue) (order : List Nat)
    (hperm : order.Perm (List.range questions.length)) :
    runMain handler questions order =
      (List.range questions.length).map (fun i =>
        (processSingleCase handler i (questions.getD i CellValue.nan)).2) ∧
    (runMain handler questions order).length = questions.length ∧
    ∀ i, i < questions.length →
      ∀ q, questions.getD i CellValue.nan = CellValue.str q →
        ¬ pyStrip q = "" →
        (∀ msg, handler i q = Except.error msg →
          (runMain handler questions order).getD i "" = "Error: " ++ msg) ∧
        (∀ ans, handler i q = Except.ok ans →
          (runMain handler questions order).getD i "" = ans) := by
  have hmem : ∀ i, i ∈ order ↔ i < questions.length := by
    intro i
    rw [hperm.mem_iff, List.mem_range]
  have hcanon : runMain handler questions order =
      (List.range questions.length).map (fun i =>
        (processSingleCase handler i (questions.getD i CellValue.nan)).2) := by
    rw [runMain_eq_foldl_set]
    apply List.ext_getElem?
    intro j
    rw [CNAI.foldl_set_getElem?]
    simp only [List.length_replicate, List.getElem?_map]
    by_cases hj : j < questions.length
    · rw [if_pos ⟨(hmem j).2 hj, hj⟩, List.getElem?_range hj]
      rfl
    · rw [if_neg (fun hc => hj hc.2), List.getElem?_replicate, if_neg hj]
      have h2 : (List.range questions.length)[j]? = none :=
        List.getElem?_eq_none (by simpa using Nat.le_of_not_lt hj)
      rw [h2]
      rfl
  refine ⟨hcanon, ?_, ?_⟩
  · rw [hcanon, List.length_map, List.length_range]
  · intro i hi q hq htrim
    have hval : (runMain handler questions order).getD i "" =
        (processSingleCase handler i (questions.getD i CellValue.nan)).2 := by
      rw [hcanon, List.getD_eq_getElem?_getD, List.getElem?_map,
        List.getElem?_range hi]
      rfl
    rw [hval, hq]
    constructor
    · intro msg hmsg
      simp only [processSingleCase]
      rw [if_neg htrim, hmsg]
    · intro ans hans
      simp only [processSingleCase]
      rw [if_neg htrim, hans]

/-- The ten-question scenario handler: raises for index 4 only. -/
def scenarioHandler : Nat → String → Except String String := fun i q =>
  if i = 4 then Except.error "bad case" else Except.ok ("A:" ++ q)

/-- Ten non-empty questions. -/
def scenarioQuestions : List CellValue :=
  [CellValue.str "q0", CellValue.str "q1", CellValue.str "q2",
    CellValue.str "q3", CellValue.str "q4", CellValue.str "q5",
    CellValue.str "q6", CellValue.str "q7", CellValue.str "q8",
    CellValue.str "q9"]

/-- Witness for C8, the spec scenario: ten items with the handler raising
for index 4, completing in a scrambled order; index 4 gets the diagnostic
string, every other index its normal answer, in original order. -/
theorem runMain_order_and_isolation_witness :
    [9, 4, 0, 1, 2, 3, 5, 6, 7, 8].Perm
      (List.range scenarioQuestions.length) ∧
    runMain scenarioHandler scenarioQuestions
        [9, 4, 0, 1, 2, 3, 5, 6, 7, 8] =
      ["A:q0", "A:q1", "A:q2", "A:q3", "Error: bad case", "A:q5", "A:q6",
        "A:q7", "A:q8", "A:q9"] := by
  refine ⟨by decide, ?_⟩
  rw [(runMain_order_and_isolation scenarioHandler scenarioQuestions
    [9, 4, 0, 1, 2, 3, 5, 6, 7, 8] (by decide)).1]
  rfl

/-- C9: a missing (`NaN`) question, or one that is empty or whitespace-only
after stripping, short-circuits to the empty-string answer for its index —
a normal result, not a failure — and the handler is never invoked: the
outcome is the same for every handler. -/
theorem processSingleCase_short_circuit
    (handler altHandler : Nat → String → Except String String) (i : Nat)
    (q : CellValue)
    (hq : q = CellValue.nan ∨ ∃ s, q = CellValue.str s ∧ pyStrip s = "") :
    processSingleCase handler i q = (i, "") ∧
    processSingleCase handler i q = processSingleCase altHandler i q := by
  rcases hq with h | ⟨s, rfl, hs⟩
  · subst h
    exact ⟨rfl, rfl⟩
  · constructor
    · simp only [processSingleCase]
      rw [if_pos hs]
    · simp only [processSingleCase]
      rw [if_pos hs, if_pos hs]

/-- Witness for C9: a whitespace-only question yields the empty answer under
a handler that would raise if it were called. -/
theorem processSingleCase_short_circuit_witness :
    ((CellValue.str "   ") = CellValue.nan ∨
      ∃ s, CellValue.str "   " = CellValue.str s ∧ pyStrip s = "") ∧
    processSingleCase (fun _ _ => Except.error "never called") 3
      (CellValue.str "   ") = (3, "") :=
  ⟨Or.inr ⟨"   ", rfl, by decide⟩,
    (processSingleCase_short_circuit (fun _ _ => Except.error "never called")
      (fun _ _ => Except.ok "other") 3 (CellValue.str "   ")
      (Or.inr ⟨"   ", rfl, by decide⟩)).1⟩

end Orchestrator
